import Mathlib

/-!
# aws-cleanup: AMI and snapshot cleanup filters

A shallow embedding of `cmd/ami.go`, `cmd/snapshot.go` and `cmd/cleanup.go`.

* Go pointers (`*string`, `*time.Time`, `*EbsBlockDevice`) are `Option`s; an unguarded
  dereference of `nil` is the abort `Abort.nilDeref`.
* `log.Fatalf` is the abort `Abort.fatal`.
* The outside world (clock, SDK client, standard-library functions whose text is not part of
  the repository) is the record `Env`; everything a run does to the outside world is appended
  to the `trace` of the `World` that is threaded through the run.
-/

set_option autoImplicit false

namespace AwsCleanup

/-! ## Standard-library pieces -/

/-- An instant of `time.Time`: nanoseconds relative to the Unix epoch. -/
abbrev Time := Int

/-- The zero value `time.Time{}` (January 1, year 1, 00:00:00 UTC), which `time.Parse` returns
together with its error. -/
def zeroTime : Time := -62135596800000000000

/-- Method `t.Before(u)`: the instant `t` is strictly earlier than `u`. -/
def Before (t u : Time) : Bool := decide (t < u)

/-- Helper `aws.ToString`: the pointed-to string, or `""` for `nil`. -/
def awsToString : Option String → String
  | some s => s
  | none => ""

/-- Scan of `strings.Contains` over the characters of the haystack: `substr` starts at the
current position or at a later one. -/
def containsFrom (substr : List Char) : List Char → Bool
  | [] => substr.isEmpty
  | c :: cs => decide (substr <+: c :: cs) || containsFrom substr cs

/-- Function `strings.Contains(s, substr)`: `substr` is within `s`. Go compares bytes; on
well-formed UTF-8 text that is the comparison of characters made here. -/
def stringsContains (s substr : String) : Bool :=
  containsFrom substr.data s.data

/-! ## Data model (the fields of the SDK types that the commands read) -/

/-- Type `types.EbsBlockDevice`. -/
structure EbsBlockDevice where
  SnapshotId : Option String
  deriving DecidableEq, Repr

/-- Type `types.BlockDeviceMapping`. -/
structure BlockDeviceMapping where
  Ebs : Option EbsBlockDevice
  deriving DecidableEq, Repr

/-- Type `types.Image`. -/
structure Image where
  ImageId : Option String
  Name : Option String
  CreationDate : Option String
  DeprecationTime : Option String
  BlockDeviceMappings : List BlockDeviceMapping
  deriving DecidableEq, Repr

/-- Type `types.Snapshot`. -/
structure Snapshot where
  SnapshotId : Option String
  Description : Option String
  StartTime : Option Time
  deriving DecidableEq, Repr

/-! ## Text filters -/

namespace Ami

/-- Loop of `filterAMIsByName` in `ami.go`; `filtered` is the slice built so far. -/
def filterAMIsByNameLoop (filter : String) : List Image → List Image → List Image
  | [], filtered => filtered
  | image :: rest, filtered =>
    if stringsContains (awsToString image.Name) filter then
      filterAMIsByNameLoop filter rest (filtered ++ [image])
    else
      filterAMIsByNameLoop filter rest filtered

/-- Function `filterAMIsByName` of `ami.go`. -/
def filterAMIsByName (filter : String) (images : List Image) : List Image :=
  filterAMIsByNameLoop filter images []

end Ami

namespace Snap

/-- Loop of `filterSnapshotsByDescription`; `filtered` is the slice built so far. -/
def filterSnapshotsByDescriptionLoop (filter : String) :
    List Snapshot → List Snapshot → List Snapshot
  | [], filtered => filtered
  | snapshot :: rest, filtered =>
    if stringsContains (awsToString snapshot.Description) filter then
      filterSnapshotsByDescriptionLoop filter rest (filtered ++ [snapshot])
    else
      filterSnapshotsByDescriptionLoop filter rest filtered

/-- Function `filterSnapshotsByDescription` of `snapshot.go`. -/
def filterSnapshotsByDescription (filter : String) (snapshots : List Snapshot) :
    List Snapshot :=
  filterSnapshotsByDescriptionLoop filter snapshots []

end Snap

namespace Cleanup

/-- Loop of `filterAMIsByName` in `cleanup.go`; `toLower` is `strings.ToLower`. The `filter`
argument is received and never read. -/
def filterAMIsByNameLoop (toLower : String → String) (filter : String) :
    List Image → List Image → List Image
  | [], filtered => filtered
  | image :: rest, filtered =>
    if stringsContains (toLower (awsToString image.Name)) "test" then
      filterAMIsByNameLoop toLower filter rest (filtered ++ [image])
    else
      filterAMIsByNameLoop toLower filter rest filtered

/-- Function `filterAMIsByName` of `cleanup.go`. -/
def filterAMIsByName (toLower : String → String) (filter : String) (images : List Image) :
    List Image :=
  filterAMIsByNameLoop toLower filter images []

end Cleanup

/-! ## The outside world -/

/-- Argument of a formatted print: a string, an `error` (its text) or a `*time.Time`. -/
inductive Arg where
  | str (s : String)
  | err (e : String)
  | time (t : Option Time)
  deriving DecidableEq, Repr

/-- What a run does to the outside world. -/
inductive Event where
  | describeImages (owners : List String)
  | describeSnapshots (statusFilter : List String) (ownerIds : List String)
  | deregisterImage (imageId : Option String)
  | deleteSnapshot (snapshotId : Option String)
  | printf (format : String) (args : List Arg)
  | logPrintf (format : String) (args : List Arg)
  deriving DecidableEq, Repr

/-- How a run ends early: `log.Fatalf` (exit status 1) or a nil-pointer dereference. -/
inductive Abort where
  | fatal (format : String)
  | nilDeref
  deriving DecidableEq, Repr

/-- State threaded through a run: the events so far (oldest first) and the number of
`time.Now()` readings taken so far. -/
structure World where
  trace : List Event
  clock : Nat
  deriving DecidableEq, Repr

/-- Append one event to the trace. -/
def World.emit (w : World) (e : Event) : World :=
  { w with trace := w.trace ++ [e] }

/-- Account for one reading of `time.Now()`. -/
def World.tick (w : World) : World :=
  { w with clock := w.clock + 1 }

/-- A computation step: the world it leaves and its value or abort. -/
abbrev Run (α : Type) := World × Except Abort α

/-- Everything outside the repository. The SDK answers may depend on all that happened before
the call (the trace); an answer `some e` of a delete call is the error `e`, `none` is success. -/
structure Env where
  /-- Call `config.LoadDefaultConfig` for a region: `some e` is its error. -/
  loadDefaultConfig : String → Option String
  /-- Value of the `n`-th reading of `time.Now()`. -/
  now : Nat → Time
  /-- Method `t.AddDate(years, months, days)`. -/
  addDate : Time → Int → Int → Int → Time
  /-- Call `time.Parse(time.RFC3339, s)`. -/
  parse : String → Except String Time
  /-- Function `strings.ToLower`. -/
  toLower : String → String
  describeImages : List Event → List String → Except String (List Image)
  describeSnapshots : List Event → List String → List String → Except String (List Snapshot)
  deregisterImage : List Event → Option String → Option String
  deleteSnapshot : List Event → Option String → Option String

/-- The two results of `time.Parse`: on an error the time is `time.Time{}`. -/
def timeParse (env : Env) (s : String) : Time × Option String :=
  match env.parse s with
  | .ok t => (t, none)
  | .error e => (zeroTime, some e)

/-- The event is a call of the inventory or delete API. -/
def Event.isApiCall : Event → Bool
  | .describeImages _ => true
  | .describeSnapshots _ _ => true
  | .deregisterImage _ => true
  | .deleteSnapshot _ => true
  | _ => false

/-- The event is a destructive call (`DeregisterImage` or `DeleteSnapshot`). -/
def Event.isDestructive : Event → Bool
  | .deregisterImage _ => true
  | .deleteSnapshot _ => true
  | _ => false

/-- The event is a `DeregisterImage` call. -/
def Event.isDeregister : Event → Bool
  | .deregisterImage _ => true
  | _ => false

/-- Snapshot identifier of a block-device mapping, when `Ebs` and its `SnapshotId` are set. -/
def BlockDeviceMapping.snapshotId (bd : BlockDeviceMapping) : Option String :=
  bd.Ebs.bind EbsBlockDevice.SnapshotId

/-! ## `ami.go` -/

namespace Ami

/-- Type `AMIOptions`. -/
structure AMIOptions where
  AssumeRole : String
  Region : String
  Owner : String
  NameFilter : String
  Age : Int
  AutoCleanup : Bool
  Deprecated : Bool
  deriving DecidableEq, Repr

/-- Inner loop of `deleteAMIs`: the block-device mappings of a deregistered image. -/
def deleteAMIsInner (env : Env) (image : Image) : List BlockDeviceMapping → World → Run Unit
  | [], w => (w, .ok ())
  | blockDevice :: rest, w =>
    match blockDevice.Ebs with
    | none => deleteAMIsInner env image rest w
    | some ebs =>
      match ebs.SnapshotId with
      | none => deleteAMIsInner env image rest w
      | some sid =>
        let w1 := w.emit (.deleteSnapshot (some sid))
        match env.deleteSnapshot w.trace (some sid) with
        | some err =>
          match image.ImageId with
          | none => (w1, .error .nilDeref)
          | some id =>
            deleteAMIsInner env image rest
              (w1.emit (.logPrintf "Error deleting snapshot %s for AMI %s: %v\n"
                [.str sid, .str id, .err err]))
        | none =>
          match image.ImageId with
          | none => (w1, .error .nilDeref)
          | some id =>
            deleteAMIsInner env image rest
              (w1.emit (.printf "Deleted Snapshot: %s for AMI: %s\n" [.str sid, .str id]))

/-- Function `deleteAMIs` of `ami.go`. -/
def deleteAMIs (env : Env) : List Image → World → Run Unit
  | [], w => (w, .ok ())
  | image :: rest, w =>
    let w1 := w.emit (.deregisterImage image.ImageId)
    match env.deregisterImage w.trace image.ImageId with
    | some err =>
      match image.ImageId with
      | none => (w1, .error .nilDeref)
      | some id =>
        deleteAMIs env rest
          (w1.emit (.logPrintf "Error deregistering AMI %s: %v\n" [.str id, .err err]))
    | none =>
      match image.ImageId with
      | none => (w1, .error .nilDeref)
      | some id =>
        match deleteAMIsInner env image image.BlockDeviceMappings
            (w1.emit (.printf "Deregistered AMI: %s\n" [.str id])) with
        | (w2, .error a) => (w2, .error a)
        | (w2, .ok _) => deleteAMIs env rest w2

/-- The filtering loop of `cleanAMIs` over `result.Images`; `filteredAMIs` is the slice built
so far. -/
def cleanAMIsLoop (env : Env) (o : AMIOptions) (cutoffDate : Time) :
    List Image → List Image → World → Run (List Image)
  | [], filteredAMIs, w => (w, .ok filteredAMIs)
  | image :: rest, filteredAMIs, w =>
    match image.CreationDate with
    | none => (w, .error .nilDeref)
    | some creationDate =>
      match timeParse env creationDate with
      | (_, some err) =>
        match image.ImageId with
        | none => (w, .error .nilDeref)
        | some id =>
          cleanAMIsLoop env o cutoffDate rest filteredAMIs
            (w.emit (.logPrintf "Error parsing creation date for AMI %s: %v"
              [.str id, .err err]))
      | (createdAt, none) =>
        if Before createdAt cutoffDate then
          if !o.Deprecated then
            cleanAMIsLoop env o cutoffDate rest (filteredAMIs ++ [image]) w
          else
            match image.DeprecationTime with
            | some deprecationTime =>
              let deprecateAt := (timeParse env deprecationTime).1
              if Before deprecateAt (env.now w.clock) then
                cleanAMIsLoop env o cutoffDate rest (filteredAMIs ++ [image]) w.tick
              else
                cleanAMIsLoop env o cutoffDate rest filteredAMIs w.tick
            | none => cleanAMIsLoop env o cutoffDate rest filteredAMIs w
        else
          cleanAMIsLoop env o cutoffDate rest filteredAMIs w

/-- The part of `cleanAMIs` that computes `filteredAMIs` from `result.Images`: the loop, then
the name filter when one is configured. -/
def filterStage (env : Env) (o : AMIOptions) (cutoffDate : Time) (images : List Image)
    (w : World) : Run (List Image) :=
  match cleanAMIsLoop env o cutoffDate images [] w with
  | (w1, .error a) => (w1, .error a)
  | (w1, .ok filteredAMIs) =>
    if o.NameFilter ≠ "" then (w1, .ok (filterAMIsByName o.NameFilter filteredAMIs))
    else (w1, .ok filteredAMIs)

/-- The reporting loop of `cleanAMIs`. -/
def reportLoop : List Image → World → Run Unit
  | [], w => (w, .ok ())
  | ami :: rest, w =>
    match ami.ImageId with
    | none => (w, .error .nilDeref)
    | some id =>
      reportLoop rest
        (w.emit (.printf "AMI ID: %s, Name: %s, Creation Date: %s\n"
          [.str id, .str (awsToString ami.Name), .str (awsToString ami.CreationDate)]))

/-- Function `cleanAMIs` of `ami.go` up to the value of `filteredAMIs` that is reported. -/
def cleanAMIsFiltered (env : Env) (o : AMIOptions) (w : World) : Run (List Image) :=
  match env.loadDefaultConfig o.Region with
  | some _ => (w, .error (.fatal "unable to load SDK config, %v"))
  | none =>
    let w1 :=
      if o.AssumeRole ≠ "" then w.emit (.printf "Assuming role: %s\n" [.str o.AssumeRole])
      else w
    if o.Age ≤ 0 then (w1, .error (.fatal "age cannot be less than or equal to zero"))
    else
      let cutoffDate := env.addDate (env.now w1.clock) 0 0 (-o.Age)
      let w2 := w1.tick
      let w3 := w2.emit (.describeImages [o.Owner])
      match env.describeImages w2.trace [o.Owner] with
      | .error _ => (w3, .error (.fatal "failed to describe images, %v"))
      | .ok images => filterStage env o cutoffDate images w3

/-- Function `cleanAMIs` of `ami.go`. -/
def cleanAMIs (env : Env) (o : AMIOptions) (w : World) : Run Unit :=
  match cleanAMIsFiltered env o w with
  | (w1, .error a) => (w1, .error a)
  | (w1, .ok filteredAMIs) =>
    match reportLoop filteredAMIs (w1.emit (.printf "Filtered AMIs:\n" [])) with
    | (w2, .error a) => (w2, .error a)
    | (w2, .ok _) =>
      if o.AutoCleanup then deleteAMIs env filteredAMIs w2 else (w2, .ok ())

end Ami

/-! ## `snapshot.go` -/

namespace Snap

/-- Type `SnapshotOptions`. -/
structure SnapshotOptions where
  AssumeRole : String
  Region : String
  Owner : String
  Description : String
  Age : Int
  AutoCleanup : Bool
  deriving DecidableEq, Repr

/-- Function `deleteSnapshots`. -/
def deleteSnapshots (env : Env) : List Snapshot → World → Run Unit
  | [], w => (w, .ok ())
  | snapshot :: rest, w =>
    let w1 := w.emit (.deleteSnapshot snapshot.SnapshotId)
    match env.deleteSnapshot w.trace snapshot.SnapshotId with
    | some err =>
      match snapshot.SnapshotId with
      | none => (w1, .error .nilDeref)
      | some id =>
        deleteSnapshots env rest
          (w1.emit (.logPrintf "Could not delete snapshot %s: %v" [.str id, .err err]))
    | none =>
      match snapshot.SnapshotId with
      | none => (w1, .error .nilDeref)
      | some id =>
        deleteSnapshots env rest
          (w1.emit (.printf "Successfully deleted snapshot: %s\n" [.str id]))

/-- The filtering loop of `cleanSnapshots` over `snapshots.Snapshots`. -/
def cleanSnapshotsLoop (cutoffDate : Time) :
    List Snapshot → List Snapshot → Except Abort (List Snapshot)
  | [], filteredSnapshots => .ok filteredSnapshots
  | snapshot :: rest, filteredSnapshots =>
    match snapshot.StartTime with
    | none => .error .nilDeref
    | some startTime =>
      if Before startTime cutoffDate then
        cleanSnapshotsLoop cutoffDate rest (filteredSnapshots ++ [snapshot])
      else
        cleanSnapshotsLoop cutoffDate rest filteredSnapshots

/-- The part of `cleanSnapshots` that computes `filteredSnapshots`: the loop, then the
description filter when one is configured. -/
def filterStage (o : SnapshotOptions) (cutoffDate : Time) (snapshots : List Snapshot) :
    Except Abort (List Snapshot) :=
  match cleanSnapshotsLoop cutoffDate snapshots [] with
  | .error a => .error a
  | .ok filteredSnapshots =>
    if o.Description ≠ "" then
      .ok (filterSnapshotsByDescription o.Description filteredSnapshots)
    else .ok filteredSnapshots

/-- The reporting loop of `cleanSnapshots`. -/
def reportLoop : List Snapshot → World → Run Unit
  | [], w => (w, .ok ())
  | snapshot :: rest, w =>
    match snapshot.SnapshotId with
    | none => (w, .error .nilDeref)
    | some id =>
      match snapshot.Description with
      | none => (w, .error .nilDeref)
      | some description =>
        reportLoop rest
          (w.emit (.printf "Snapshot ID: %s, Description: %s, Start Time: %s\n"
            [.str id, .str description, .time snapshot.StartTime]))

/-- Function `cleanSnapshots` up to the value of `filteredSnapshots` that is reported. -/
def cleanSnapshotsFiltered (env : Env) (o : SnapshotOptions) (w : World) :
    Run (List Snapshot) :=
  match env.loadDefaultConfig o.Region with
  | some _ => (w, .error (.fatal "unable to load SDK config, %v"))
  | none =>
    let w1 :=
      if o.AssumeRole ≠ "" then w.emit (.printf "Assuming role: %s\n" [.str o.AssumeRole])
      else w
    if o.Age ≤ 0 then (w1, .error (.fatal "age cannot be less than or equal to zero"))
    else
      let cutoffDate := env.addDate (env.now w1.clock) 0 0 (-o.Age)
      let w2 := w1.tick
      let w3 := w2.emit (.describeSnapshots ["completed"] [o.Owner])
      match env.describeSnapshots w2.trace ["completed"] [o.Owner] with
      | .error _ => (w3, .error (.fatal "failed to describe snapshots, %v"))
      | .ok snapshots => (w3, filterStage o cutoffDate snapshots)

/-- Function `cleanSnapshots`. A `nil` slice is the empty list: `filteredSnapshots` is
non-nil exactly when an element was appended to it. -/
def cleanSnapshots (env : Env) (o : SnapshotOptions) (w : World) : Run Unit :=
  match cleanSnapshotsFiltered env o w with
  | (w1, .error a) => (w1, .error a)
  | (w1, .ok filteredSnapshots) =>
    if filteredSnapshots ≠ [] then
      match reportLoop filteredSnapshots (w1.emit (.printf "Filtered Snapshots:\n" [])) with
      | (w2, .error a) => (w2, .error a)
      | (w2, .ok _) =>
        if o.AutoCleanup then deleteSnapshots env filteredSnapshots w2 else (w2, .ok ())
    else (w1.emit (.printf "No snapshots found.\n" []), .ok ())

end Snap

/-! ## `cleanup.go` -/

namespace Cleanup

/-- The package-level flag variables of `cleanup.go`. -/
structure Options where
  region : String
  owner : String
  nameFilter : String
  autoCleanup : Bool
  deriving DecidableEq, Repr

/-- The filtering loop of `cleanAMIs` in `cleanup.go`. -/
def cleanAMIsLoop (env : Env) (cutoffDate : Time) :
    List Image → List Image → World → Run (List Image)
  | [], filteredAMIs, w => (w, .ok filteredAMIs)
  | image :: rest, filteredAMIs, w =>
    match image.CreationDate with
    | none => (w, .error .nilDeref)
    | some creationDate =>
      match timeParse env creationDate with
      | (_, some err) =>
        match image.ImageId with
        | none => (w, .error .nilDeref)
        | some id =>
          cleanAMIsLoop env cutoffDate rest filteredAMIs
            (w.emit (.logPrintf "Error parsing creation date for AMI %s: %v"
              [.str id, .err err]))
      | (createdAt, none) =>
        if Before createdAt cutoffDate then
          cleanAMIsLoop env cutoffDate rest (filteredAMIs ++ [image]) w
        else
          cleanAMIsLoop env cutoffDate rest filteredAMIs w

/-- Function `cleanAMIs` of `cleanup.go` up to the value of `filteredAMIs` that is reported. -/
def cleanAMIsFiltered (env : Env) (o : Options) (w : World) : Run (List Image) :=
  match env.loadDefaultConfig o.region with
  | some _ => (w, .error (.fatal "unable to load SDK config, %v"))
  | none =>
    let cutoffDate := env.addDate (env.now w.clock) 0 0 (-60)
    let w1 := w.tick
    let w2 := w1.emit (.describeImages [o.owner])
    match env.describeImages w1.trace [o.owner] with
    | .error _ => (w2, .error (.fatal "failed to describe images, %v"))
    | .ok images =>
      match cleanAMIsLoop env cutoffDate images [] w2 with
      | (w3, .error a) => (w3, .error a)
      | (w3, .ok filteredAMIs) =>
        if o.nameFilter ≠ "" then
          (w3, .ok (filterAMIsByName env.toLower o.nameFilter filteredAMIs))
        else (w3, .ok filteredAMIs)

/-- Function `cleanAMIs` of `cleanup.go`; the `deleteAMIs` call under `autoCleanup` is
commented out in the source, so that branch is empty. -/
def cleanAMIs (env : Env) (o : Options) (w : World) : Run Unit :=
  match cleanAMIsFiltered env o w with
  | (w1, .error a) => (w1, .error a)
  | (w1, .ok filteredAMIs) =>
    match Ami.reportLoop filteredAMIs (w1.emit (.printf "Filtered AMIs:\n" [])) with
    | (w2, .error a) => (w2, .error a)
    | (w2, .ok _) => if o.autoCleanup then (w2, .ok ()) else (w2, .ok ())

end Cleanup

/-! ## Reference notions used in the statements -/

/-- The world at the start of the process: nothing has happened, the clock was never read. -/
def World.init : World := ⟨[], 0⟩

/-- The string does not parse as an RFC 3339 time. -/
def parseFails (env : Env) (s : String) : Bool :=
  match env.parse s with
  | .ok _ => false
  | .error _ => true

/-- The image has a creation date that parses to an instant strictly before `cutoff`. -/
def createdBefore (env : Env) (cutoff : Time) (image : Image) : Bool :=
  match image.CreationDate with
  | none => false
  | some s =>
    match env.parse s with
    | .ok t => decide (t < cutoff)
    | .error _ => false

/-- The image has a creation date, and it fails to parse. -/
def creationUnparseable (env : Env) (image : Image) : Bool :=
  match image.CreationDate with
  | none => false
  | some s => parseFails env s

/-- The snapshot has a start time strictly before `cutoff`. -/
def startedBefore (cutoff : Time) (snapshot : Snapshot) : Bool :=
  match snapshot.StartTime with
  | none => false
  | some t => decide (t < cutoff)

/-- The event is console or log output. -/
def Event.isOutput : Event → Bool
  | .printf _ _ => true
  | .logPrintf _ _ => true
  | _ => false

/-- World `w2` is `w1` after more events, all of which satisfy `P`, the clock left alone or
read further. -/
def Extends (P : Event → Bool) (w1 w2 : World) : Prop :=
  ∃ extra, w2.trace = w1.trace ++ extra ∧ ∀ e ∈ extra, P e = true

/-! ## A sample world, for the concrete instances -/

/-- An image from 2020 whose deprecation time is not a timestamp. -/
def sampleOld : Image :=
  ⟨some "ami-old", some "build-Test-1", some "2020-01-01T00:00:00Z", some "not-a-time",
    [⟨some ⟨some "snap-1"⟩⟩, ⟨none⟩, ⟨some ⟨none⟩⟩, ⟨some ⟨some "snap-2"⟩⟩]⟩

/-- An image from October 2024, without name and without deprecation time. -/
def sampleNew : Image := ⟨some "ami-new", none, some "2024-10-01T00:00:00Z", none, []⟩

/-- An image whose creation date is not a timestamp. -/
def sampleBad : Image := ⟨some "ami-bad", some "prod", some "yesterday", none, []⟩

/-- A snapshot started on 2020-01-01T00:00:00Z. -/
def sampleSnapOld : Snapshot := ⟨some "snap-1", some "nightly test", some 1577836800000000000⟩

/-- A snapshot started on 2024-10-01T00:00:00Z, without description. -/
def sampleSnapNew : Snapshot := ⟨some "snap-9", none, some 1727740800000000000⟩

/-- A sample outside world. The clock stands at 2024-10-27T03:33:20Z; `parse` answers as
`time.Parse(time.RFC3339, ·)` does on the four timestamp strings of the sample inventory;
`addDate` is `AddDate` in UTC for a number of days; owner `"self"` has the three sample
images, any other owner the two whose creation dates parse; `DeregisterImage` fails for
`ami-new` and `DeleteSnapshot` fails for `snap-1`. -/
def sampleEnv : Env where
  loadDefaultConfig _ := none
  now _ := 1730000000000000000
  addDate t _ _ days := t + days * 86400000000000
  parse s :=
    if s = "2020-01-01T00:00:00Z" then .ok 1577836800000000000
    else if s = "2024-10-01T00:00:00Z" then .ok 1727740800000000000
    else .error "cannot parse"
  toLower s := ⟨s.data.map Char.toLower⟩
  describeImages _ owners :=
    if owners = ["self"] then .ok [sampleOld, sampleNew, sampleBad]
    else .ok [sampleOld, sampleNew]
  describeSnapshots _ _ _ := .ok [sampleSnapOld, sampleSnapNew]
  deregisterImage _ id := if id = some "ami-new" then some "request failed" else none
  deleteSnapshot _ id := if id = some "snap-1" then some "request failed" else none

/-- Options of `ami`: owner `self`, age 30, deprecated-only mode, no name filter. -/
def sampleDeprecatedOnly : Ami.AMIOptions := ⟨"", "us-east-1", "self", "", 30, false, true⟩

/-- Options of `ami`: age 30, no name filter, deprecated-only mode off, no auto-cleanup. -/
def samplePlain : Ami.AMIOptions := ⟨"", "us-east-1", "self", "", 30, false, false⟩

/-- Options of `ami` with age 0. -/
def sampleAgeZero : Ami.AMIOptions := ⟨"role", "us-east-1", "self", "", 0, true, false⟩

/-- Options of `snapshot`: age 30, no description filter, no auto-cleanup. -/
def sampleSnapPlain : Snap.SnapshotOptions := ⟨"", "us-east-1", "self", "", 30, false⟩

/-- Options of `snapshot` with a negative age. -/
def sampleSnapNegativeAge : Snap.SnapshotOptions := ⟨"", "us-east-1", "self", "", -5, true⟩

/-- Flags of `clean` (`cleanup.go`): another owner, a name filter, auto-cleanup set. -/
def sampleCleanupFlags : Cleanup.Options := ⟨"us-east-1", "123456789012", "prod", true⟩

/-! ## Lemmas on the text filters -/

theorem containsFrom_iff (substr s : List Char) :
    containsFrom substr s = true ↔ substr <:+: s := by
  induction s with
  | nil =>
    simp [containsFrom, List.isEmpty_iff]
  | cons c cs ih =>
    simp only [containsFrom, Bool.or_eq_true, decide_eq_true_eq, ih]
    rw [List.infix_cons_iff]

theorem stringsContains_iff (s substr : String) :
    stringsContains s substr = true ↔ substr.data <:+: s.data :=
  containsFrom_iff _ _

theorem stringsContains_eq_decide (s substr : String) :
    stringsContains s substr = decide (substr.data <:+: s.data) := by
  rw [Bool.eq_iff_iff, stringsContains_iff, decide_eq_true_eq]

theorem awsToString_eq_getD (p : Option String) : awsToString p = p.getD "" := by
  cases p <;> rfl

theorem Ami.filterAMIsByNameLoop_eq (filter : String) (images filtered : List Image) :
    Ami.filterAMIsByNameLoop filter images filtered =
      filtered ++ images.filter (fun image => stringsContains (awsToString image.Name) filter) := by
  induction images generalizing filtered with
  | nil => simp [Ami.filterAMIsByNameLoop]
  | cons image rest ih =>
    by_cases h : stringsContains (awsToString image.Name) filter = true
    · simp [Ami.filterAMIsByNameLoop, h, ih]
    · simp [Ami.filterAMIsByNameLoop, h, ih]

theorem Ami.filterAMIsByName_eq (filter : String) (images : List Image) :
    Ami.filterAMIsByName filter images =
      images.filter (fun image => stringsContains (awsToString image.Name) filter) := by
  simp [Ami.filterAMIsByName, Ami.filterAMIsByNameLoop_eq]

theorem Snap.filterSnapshotsByDescriptionLoop_eq (filter : String)
    (snapshots filtered : List Snapshot) :
    Snap.filterSnapshotsByDescriptionLoop filter snapshots filtered =
      filtered ++
        snapshots.filter (fun s => stringsContains (awsToString s.Description) filter) := by
  induction snapshots generalizing filtered with
  | nil => simp [Snap.filterSnapshotsByDescriptionLoop]
  | cons snapshot rest ih =>
    by_cases h : stringsContains (awsToString snapshot.Description) filter = true
    · simp [Snap.filterSnapshotsByDescriptionLoop, h, ih]
    · simp [Snap.filterSnapshotsByDescriptionLoop, h, ih]

theorem Snap.filterSnapshotsByDescription_eq (filter : String) (snapshots : List Snapshot) :
    Snap.filterSnapshotsByDescription filter snapshots =
      snapshots.filter (fun s => stringsContains (awsToString s.Description) filter) := by
  simp [Snap.filterSnapshotsByDescription, Snap.filterSnapshotsByDescriptionLoop_eq]

theorem Cleanup.hardcoded_filterAMIsByNameLoop_eq (toLower : String → String) (filter : String)
    (images filtered : List Image) :
    Cleanup.filterAMIsByNameLoop toLower filter images filtered =
      filtered ++
        images.filter (fun image => stringsContains (toLower (awsToString image.Name)) "test") := by
  induction images generalizing filtered with
  | nil => simp [Cleanup.filterAMIsByNameLoop]
  | cons image rest ih =>
    by_cases h : stringsContains (toLower (awsToString image.Name)) "test" = true
    · simp [Cleanup.filterAMIsByNameLoop, h, ih]
    · simp [Cleanup.filterAMIsByNameLoop, h, ih]

theorem Cleanup.hardcoded_filterAMIsByName_eq (toLower : String → String) (filter : String)
    (images : List Image) :
    Cleanup.filterAMIsByName toLower filter images =
      images.filter (fun image => stringsContains (toLower (awsToString image.Name)) "test") := by
  simp [Cleanup.filterAMIsByName, Cleanup.hardcoded_filterAMIsByNameLoop_eq]

/-! ## The text filters: exactness and idempotence -/

/-- C4: for every filter string (the non-empty ones in particular), `filterAMIsByName` and
`filterSnapshotsByDescription` return exactly the items of the input, in input order, whose
name / description (the empty text when it is missing) has the filter as a contiguous,
character-for-character substring. -/
theorem C4_text_filter_exact (filter : String) (images : List Image)
    (snapshots : List Snapshot) :
    Ami.filterAMIsByName filter images =
        images.filter (fun image => decide (filter.data <:+: (image.Name.getD "").data)) ∧
      Snap.filterSnapshotsByDescription filter snapshots =
        snapshots.filter
          (fun snapshot => decide (filter.data <:+: (snapshot.Description.getD "").data)) := by
  constructor
  · rw [Ami.filterAMIsByName_eq]
    congr 1
    funext image
    rw [stringsContains_eq_decide, awsToString_eq_getD]
  · rw [Snap.filterSnapshotsByDescription_eq]
    congr 1
    funext snapshot
    rw [stringsContains_eq_decide, awsToString_eq_getD]

/-- C5: applying a text filter twice with the same substring gives what applying it once
gives, for `filterAMIsByName` of `ami.go`, for `filterSnapshotsByDescription` and for
`filterAMIsByName` of `cleanup.go`. -/
theorem C5_text_filter_idempotent (toLower : String → String) (f : String)
    (xs : List Image) (ys : List Snapshot) :
    Ami.filterAMIsByName f (Ami.filterAMIsByName f xs) = Ami.filterAMIsByName f xs ∧
      Snap.filterSnapshotsByDescription f (Snap.filterSnapshotsByDescription f ys) =
        Snap.filterSnapshotsByDescription f ys ∧
      Cleanup.filterAMIsByName toLower f (Cleanup.filterAMIsByName toLower f xs) =
        Cleanup.filterAMIsByName toLower f xs := by
  refine ⟨?_, ?_, ?_⟩
  · simp only [Ami.filterAMIsByName_eq, List.filter_filter, Bool.and_self]
  · simp only [Snap.filterSnapshotsByDescription_eq, List.filter_filter, Bool.and_self]
  · simp only [Cleanup.hardcoded_filterAMIsByName_eq, List.filter_filter, Bool.and_self]

/-! ## The age filter -/

theorem timeParse_ok (env : Env) (s : String) (t : Time) (h : env.parse s = .ok t) :
    timeParse env s = (t, none) := by
  simp [timeParse, h]

theorem timeParse_error (env : Env) (s e : String) (h : env.parse s = .error e) :
    timeParse env s = (zeroTime, some e) := by
  simp [timeParse, h]

theorem Ami.cleanAMIsLoop_eq_filter (env : Env) (o : Ami.AMIOptions) (cutoff : Time)
    (hdep : o.Deprecated = false) (images filtered : List Image) (w : World)
    (hparse : ∀ image ∈ images, ∃ s t, image.CreationDate = some s ∧ env.parse s = .ok t) :
    Ami.cleanAMIsLoop env o cutoff images filtered w =
      (w, .ok (filtered ++ images.filter (createdBefore env cutoff))) := by
  induction images generalizing filtered with
  | nil => simp [Ami.cleanAMIsLoop]
  | cons image rest ih =>
    obtain ⟨s, t, hs, ht⟩ := hparse image (List.mem_cons_self _ _)
    have hrest : ∀ image ∈ rest, ∃ s t, image.CreationDate = some s ∧ env.parse s = .ok t :=
      fun i hi => hparse i (List.mem_cons_of_mem _ hi)
    by_cases hlt : t < cutoff
    · simp [Ami.cleanAMIsLoop, hs, timeParse_ok env s t ht, Before, hlt, hdep, ih _ hrest,
        createdBefore, ht]
    · simp [Ami.cleanAMIsLoop, hs, timeParse_ok env s t ht, Before, hlt, ih _ hrest,
        createdBefore, ht]

theorem Snap.cleanSnapshotsLoop_eq_filter (cutoff : Time) (snapshots filtered : List Snapshot)
    (hstart : ∀ snapshot ∈ snapshots, snapshot.StartTime ≠ none) :
    Snap.cleanSnapshotsLoop cutoff snapshots filtered =
      .ok (filtered ++ snapshots.filter (startedBefore cutoff)) := by
  induction snapshots generalizing filtered with
  | nil => simp [Snap.cleanSnapshotsLoop]
  | cons snapshot rest ih =>
    have hrest : ∀ snapshot ∈ rest, snapshot.StartTime ≠ none :=
      fun i hi => hstart i (List.mem_cons_of_mem _ hi)
    have h0 := hstart snapshot (List.mem_cons_self _ _)
    obtain ⟨t, ht⟩ := Option.ne_none_iff_exists'.mp h0
    by_cases hlt : t < cutoff
    · simp [Snap.cleanSnapshotsLoop, ht, Before, hlt, ih _ hrest, startedBefore]
    · simp [Snap.cleanSnapshotsLoop, ht, Before, hlt, ih _ hrest, startedBefore]

theorem createdBefore_iff (env : Env) (cutoff : Time) (image : Image) :
    createdBefore env cutoff image = true ↔
      ∃ s t, image.CreationDate = some s ∧ env.parse s = .ok t ∧ t < cutoff := by
  unfold createdBefore
  cases hc : image.CreationDate with
  | none => simp
  | some s =>
    cases hp : env.parse s with
    | ok t => simp [hp]
    | error e => simp [hp]

theorem startedBefore_iff (cutoff : Time) (snapshot : Snapshot) :
    startedBefore cutoff snapshot = true ↔ ∃ t, snapshot.StartTime = some t ∧ t < cutoff := by
  unfold startedBefore
  cases hc : snapshot.StartTime with
  | none => simp
  | some t => simp

/-- How `filterStage` sits in `cleanAMIs`: once the configuration has loaded, the age is
positive and `DescribeImages` has answered, `filteredAMIs` is `filterStage` of the listed
images at the cutoff `time.Now().AddDate(0, 0, -Age)`. -/
theorem Ami.cleanAMIsFiltered_eq_filterStage (env : Env) (o : Ami.AMIOptions) (w : World)
    (images : List Image) (hload : env.loadDefaultConfig o.Region = none) (hage : 0 < o.Age)
    (hdescribe : ∀ trace, env.describeImages trace [o.Owner] = .ok images) :
    ∃ w3, w3.clock = w.clock + 1 ∧
      Ami.cleanAMIsFiltered env o w =
        Ami.filterStage env o (env.addDate (env.now w.clock) 0 0 (-o.Age)) images w3 := by
  unfold Ami.cleanAMIsFiltered
  simp only [hload, not_le.mpr hage, if_false, hdescribe]
  split
  · exact ⟨_, rfl, rfl⟩
  · exact ⟨_, rfl, rfl⟩

/-- How `filterStage` sits in `cleanSnapshots`. -/
theorem Snap.cleanSnapshotsFiltered_eq_filterStage (env : Env) (o : Snap.SnapshotOptions)
    (w : World) (snapshots : List Snapshot) (hload : env.loadDefaultConfig o.Region = none)
    (hage : 0 < o.Age)
    (hdescribe : ∀ trace, env.describeSnapshots trace ["completed"] [o.Owner] = .ok snapshots) :
    (Snap.cleanSnapshotsFiltered env o w).2 =
      Snap.filterStage o (env.addDate (env.now w.clock) 0 0 (-o.Age)) snapshots := by
  unfold Snap.cleanSnapshotsFiltered
  simp only [hload, not_le.mpr hage, if_false, hdescribe]
  split
  · rfl
  · rfl

/-- C2: with deprecated-only mode off and no text filter, for an inventory whose timestamps
are all present and parse, the filtered result of `cleanAMIs` and of `cleanSnapshots` is the
input filtered, in input order, by "timestamp strictly before the cutoff": an item is in the
result exactly when its timestamp is `< cutoff`, so one at the cutoff itself is left out. -/
theorem C2_age_filter_strict (env : Env) (o : Ami.AMIOptions) (so : Snap.SnapshotOptions)
    (cutoff : Time) (images : List Image) (snapshots : List Snapshot) (w : World)
    (hdep : o.Deprecated = false) (hname : o.NameFilter = "") (hdesc : so.Description = "")
    (hparse : ∀ image ∈ images, ∃ s t, image.CreationDate = some s ∧ env.parse s = .ok t)
    (hstart : ∀ snapshot ∈ snapshots, snapshot.StartTime ≠ none) :
    ((Ami.filterStage env o cutoff images w).2 =
          .ok (images.filter (createdBefore env cutoff)) ∧
        ∀ image, createdBefore env cutoff image = true ↔
          ∃ s t, image.CreationDate = some s ∧ env.parse s = .ok t ∧ t < cutoff) ∧
      (Snap.filterStage so cutoff snapshots = .ok (snapshots.filter (startedBefore cutoff)) ∧
        ∀ snapshot, startedBefore cutoff snapshot = true ↔
          ∃ t, snapshot.StartTime = some t ∧ t < cutoff) := by
  refine ⟨⟨?_, createdBefore_iff env cutoff⟩, ⟨?_, startedBefore_iff cutoff⟩⟩
  · simp [Ami.filterStage, Ami.cleanAMIsLoop_eq_filter env o cutoff hdep images [] w hparse,
      hname]
  · simp [Snap.filterStage, Snap.cleanSnapshotsLoop_eq_filter cutoff snapshots [] hstart,
      hdesc]

/-! ## Traces: what the filtering and reporting parts do to the outside world -/

theorem Extends.refl (P : Event → Bool) (w : World) : Extends P w w :=
  ⟨[], by simp, by simp⟩

theorem Extends.trans {P : Event → Bool} {w1 w2 w3 : World} (h12 : Extends P w1 w2)
    (h23 : Extends P w2 w3) : Extends P w1 w3 := by
  obtain ⟨e1, ht1, hp1⟩ := h12
  obtain ⟨e2, ht2, hp2⟩ := h23
  refine ⟨e1 ++ e2, by rw [ht2, ht1, List.append_assoc], ?_⟩
  intro e he
  rcases List.mem_append.mp he with h | h
  · exact hp1 e h
  · exact hp2 e h

theorem Extends.mono {P Q : Event → Bool} {w1 w2 : World} (hPQ : ∀ e, P e = true → Q e = true)
    (h : Extends P w1 w2) : Extends Q w1 w2 := by
  obtain ⟨e1, ht1, hp1⟩ := h
  exact ⟨e1, ht1, fun e he => hPQ e (hp1 e he)⟩

theorem Extends.emit {P : Event → Bool} (w : World) (e : Event) (he : P e = true) :
    Extends P w (w.emit e) :=
  ⟨[e], rfl, by simpa using he⟩

theorem Extends.tick (P : Event → Bool) (w : World) : Extends P w w.tick :=
  ⟨[], by simp [World.tick], by simp⟩

theorem Extends.emit_left {P : Event → Bool} {w w2 : World} (e : Event) (he : P e = true)
    (h : Extends P (w.emit e) w2) : Extends P w w2 :=
  (Extends.emit w e he).trans h

theorem Extends.tick_left {P : Event → Bool} {w w2 : World} (h : Extends P w.tick w2) :
    Extends P w w2 :=
  (Extends.tick P w).trans h

theorem isOutput_not_destructive (e : Event) (h : e.isOutput = true) :
    (!e.isDestructive) = true := by
  cases e <;> simp_all [Event.isOutput, Event.isDestructive]

theorem Ami.cleanAMIsLoop_extends (env : Env) (o : Ami.AMIOptions) (cutoff : Time)
    (images filtered : List Image) (w : World) :
    Extends Event.isOutput w (Ami.cleanAMIsLoop env o cutoff images filtered w).1 := by
  induction images generalizing filtered w with
  | nil => exact Extends.refl _ _
  | cons image rest ih =>
    unfold Ami.cleanAMIsLoop
    split
    · exact Extends.refl _ _
    · split
      · split
        · exact Extends.refl _ _
        · exact Extends.emit_left _ (by rfl) (ih _ _)
      · split
        · split
          · exact ih _ _
          · split
            · dsimp only
              split
              · exact Extends.tick_left (ih _ _)
              · exact Extends.tick_left (ih _ _)
            · exact ih _ _
        · exact ih _ _

theorem Cleanup.hardcoded_cleanAMIsLoop_extends (env : Env) (cutoff : Time)
    (images filtered : List Image) (w : World) :
    Extends Event.isOutput w (Cleanup.cleanAMIsLoop env cutoff images filtered w).1 := by
  induction images generalizing filtered w with
  | nil => exact Extends.refl _ _
  | cons image rest ih =>
    unfold Cleanup.cleanAMIsLoop
    split
    · exact Extends.refl _ _
    · split
      · split
        · exact Extends.refl _ _
        · exact Extends.emit_left _ (by rfl) (ih _ _)
      · split
        · exact ih _ _
        · exact ih _ _

theorem Ami.reportLoop_extends (images : List Image) (w : World) :
    Extends Event.isOutput w (Ami.reportLoop images w).1 := by
  induction images generalizing w with
  | nil => exact Extends.refl _ _
  | cons image rest ih =>
    unfold Ami.reportLoop
    split
    · exact Extends.refl _ _
    · exact Extends.emit_left _ (by rfl) (ih _)

theorem Snap.snapshot_reportLoop_extends (snapshots : List Snapshot) (w : World) :
    Extends Event.isOutput w (Snap.reportLoop snapshots w).1 := by
  induction snapshots generalizing w with
  | nil => exact Extends.refl _ _
  | cons snapshot rest ih =>
    unfold Snap.reportLoop
    split
    · exact Extends.refl _ _
    · split
      · exact Extends.refl _ _
      · exact Extends.emit_left _ (by rfl) (ih _)

theorem Ami.filterStage_extends (env : Env) (o : Ami.AMIOptions) (cutoff : Time)
    (images : List Image) (w : World) :
    Extends Event.isOutput w (Ami.filterStage env o cutoff images w).1 := by
  have h := Ami.cleanAMIsLoop_extends env o cutoff images [] w
  unfold Ami.filterStage
  split
  · next w1 a heq => rw [heq] at h; exact h
  · next w1 fl heq =>
    rw [heq] at h
    split <;> exact h

theorem assumeRole_extends (P : Event → Bool) (role : String) (w : World)
    (hP : ∀ f a, P (.printf f a) = true) :
    Extends P w (if role ≠ "" then w.emit (.printf "Assuming role: %s\n" [.str role]) else w) := by
  split
  · exact Extends.emit _ _ (hP _ _)
  · exact Extends.refl _ _

theorem Ami.cleanAMIsFiltered_extends (env : Env) (o : Ami.AMIOptions) (w : World) :
    Extends (fun e => !e.isDestructive) w (Ami.cleanAMIsFiltered env o w).1 := by
  unfold Ami.cleanAMIsFiltered
  split
  · exact Extends.refl _ _
  · have h1 := assumeRole_extends (fun e => !e.isDestructive) o.AssumeRole w
      (fun _ _ => rfl)
    dsimp only
    generalize (if o.AssumeRole ≠ "" then
      w.emit (.printf "Assuming role: %s\n" [.str o.AssumeRole]) else w) = w1 at h1 ⊢
    split
    · exact h1
    · refine h1.trans (Extends.tick_left ?_)
      split
      · exact Extends.emit _ _ (by rfl)
      · exact Extends.emit_left _ (by rfl)
          ((Ami.filterStage_extends env o _ _ _).mono isOutput_not_destructive)

theorem Snap.cleanSnapshotsFiltered_extends (env : Env) (o : Snap.SnapshotOptions) (w : World) :
    Extends (fun e => !e.isDestructive) w (Snap.cleanSnapshotsFiltered env o w).1 := by
  unfold Snap.cleanSnapshotsFiltered
  split
  · exact Extends.refl _ _
  · have h1 := assumeRole_extends (fun e => !e.isDestructive) o.AssumeRole w
      (fun _ _ => rfl)
    dsimp only
    generalize (if o.AssumeRole ≠ "" then
      w.emit (.printf "Assuming role: %s\n" [.str o.AssumeRole]) else w) = w1 at h1 ⊢
    split
    · exact h1
    · refine h1.trans (Extends.tick_left ?_)
      split
      · exact Extends.emit _ _ (by rfl)
      · exact Extends.emit _ _ (by rfl)

theorem Cleanup.hardcoded_cleanAMIsFiltered_extends (env : Env) (o : Cleanup.Options) (w : World) :
    Extends (fun e => !e.isDestructive) w (Cleanup.cleanAMIsFiltered env o w).1 := by
  unfold Cleanup.cleanAMIsFiltered
  split
  · exact Extends.refl _ _
  · dsimp only
    refine Extends.tick_left ?_
    split
    · exact Extends.emit _ _ (by rfl)
    · next images _ =>
      refine Extends.emit_left (.describeImages [o.owner]) (by rfl) ?_
      have h := (Cleanup.hardcoded_cleanAMIsLoop_extends env
        (env.addDate (env.now w.clock) 0 0 (-60)) images []
        (w.tick.emit (.describeImages [o.owner]))).mono isOutput_not_destructive
      split
      · next w3 a heq => rw [heq] at h; exact h
      · next w3 fl heq =>
        rw [heq] at h
        split <;> exact h

/-- Unfolding of `Extends` for the "no destructive call" reading. -/
theorem Extends.not_destructive {w1 w2 : World}
    (h : Extends (fun e => !e.isDestructive) w1 w2) :
    ∃ extra, w2.trace = w1.trace ++ extra ∧ ∀ e ∈ extra, e.isDestructive = false := by
  obtain ⟨extra, ht, hp⟩ := h
  exact ⟨extra, ht, fun e he => by simpa using hp e he⟩

/-- C6: without auto-cleanup a run of `cleanAMIs` or of `cleanSnapshots` adds no
`DeregisterImage` and no `DeleteSnapshot` call to the trace, whatever the inventory, the
other options and the answers of the outside world; the `cleanAMIs` of `cleanup.go`, whose
`deleteAMIs` call is commented out, adds none either. -/
theorem C6_no_destructive_call_without_auto_cleanup (env : Env) (o : Ami.AMIOptions)
    (so : Snap.SnapshotOptions) (co : Cleanup.Options) (w : World)
    (hauto : o.AutoCleanup = false) (hsauto : so.AutoCleanup = false) :
    (∃ extra, (Ami.cleanAMIs env o w).1.trace = w.trace ++ extra ∧
        ∀ e ∈ extra, e.isDestructive = false) ∧
      (∃ extra, (Snap.cleanSnapshots env so w).1.trace = w.trace ++ extra ∧
        ∀ e ∈ extra, e.isDestructive = false) ∧
      (∃ extra, (Cleanup.cleanAMIs env co w).1.trace = w.trace ++ extra ∧
        ∀ e ∈ extra, e.isDestructive = false) := by
  refine ⟨Extends.not_destructive ?_, Extends.not_destructive ?_, Extends.not_destructive ?_⟩
  · have h := Ami.cleanAMIsFiltered_extends env o w
    unfold Ami.cleanAMIs
    split
    · next w1 a heq => rw [heq] at h; exact h
    · next w1 fl heq =>
      rw [heq] at h
      have h2 := (Ami.reportLoop_extends fl (w1.emit (.printf "Filtered AMIs:\n" []))).mono
        isOutput_not_destructive
      have h3 := h.trans (Extends.emit_left _ (by rfl) h2)
      split
      · next w2 a heq2 => rw [heq2] at h3; exact h3
      · next w2 u heq2 =>
        rw [heq2] at h3
        simp only [hauto]
        exact h3
  · have h := Snap.cleanSnapshotsFiltered_extends env so w
    unfold Snap.cleanSnapshots
    split
    · next w1 a heq => rw [heq] at h; exact h
    · next w1 fl heq =>
      rw [heq] at h
      split
      · have h2 := (Snap.snapshot_reportLoop_extends fl
          (w1.emit (.printf "Filtered Snapshots:\n" []))).mono isOutput_not_destructive
        have h3 := h.trans (Extends.emit_left _ (by rfl) h2)
        split
        · next w2 a heq2 => rw [heq2] at h3; exact h3
        · next w2 u heq2 =>
          rw [heq2] at h3
          simp only [hsauto]
          exact h3
      · exact h.trans (Extends.emit _ _ (by rfl))
  · have h := Cleanup.hardcoded_cleanAMIsFiltered_extends env co w
    unfold Cleanup.cleanAMIs
    split
    · next w1 a heq => rw [heq] at h; exact h
    · next w1 fl heq =>
      rw [heq] at h
      have h2 := (Ami.reportLoop_extends fl (w1.emit (.printf "Filtered AMIs:\n" []))).mono
        isOutput_not_destructive
      have h3 := h.trans (Extends.emit_left _ (by rfl) h2)
      split
      · next w2 a heq2 => rw [heq2] at h3; exact h3
      · next w2 u heq2 =>
        rw [heq2] at h3
        split <;> exact h3

/-! ## The age guard -/

theorem Ami.cleanAMIsFiltered_of_age_le (env : Env) (o : Ami.AMIOptions) (w : World)
    (hage : o.Age ≤ 0) :
    ∃ msg w1, Ami.cleanAMIsFiltered env o w = (w1, .error (.fatal msg)) ∧
      Extends (fun e => !e.isApiCall) w w1 := by
  unfold Ami.cleanAMIsFiltered
  split
  · exact ⟨_, _, rfl, Extends.refl _ _⟩
  · simp only [hage, if_true]
    exact ⟨_, _, rfl, assumeRole_extends _ _ _ (fun _ _ => rfl)⟩

theorem Snap.cleanSnapshotsFiltered_of_age_le (env : Env) (o : Snap.SnapshotOptions)
    (w : World) (hage : o.Age ≤ 0) :
    ∃ msg w1, Snap.cleanSnapshotsFiltered env o w = (w1, .error (.fatal msg)) ∧
      Extends (fun e => !e.isApiCall) w w1 := by
  unfold Snap.cleanSnapshotsFiltered
  split
  · exact ⟨_, _, rfl, Extends.refl _ _⟩
  · simp only [hage, if_true]
    exact ⟨_, _, rfl, assumeRole_extends _ _ _ (fun _ _ => rfl)⟩

/-- Unfolding of `Extends` for the "no API call" reading. -/
theorem Extends.not_apiCall {w1 w2 : World} (h : Extends (fun e => !e.isApiCall) w1 w2) :
    ∃ extra, w2.trace = w1.trace ++ extra ∧ ∀ e ∈ extra, e.isApiCall = false := by
  obtain ⟨extra, ht, hp⟩ := h
  exact ⟨extra, ht, fun e he => by simpa using hp e he⟩

/-- C1: with a configured age `≤ 0`, `cleanAMIs` and `cleanSnapshots` end in `log.Fatalf`,
and the run has added no `DescribeImages`, `DescribeSnapshots`, `DeregisterImage` or
`DeleteSnapshot` call to the trace, whatever the outside world holds. -/
theorem C1_nonpositive_age_is_fatal_before_any_call (env : Env) (o : Ami.AMIOptions)
    (so : Snap.SnapshotOptions) (w : World) (hage : o.Age ≤ 0) (hsage : so.Age ≤ 0) :
    ((∃ msg, (Ami.cleanAMIs env o w).2 = .error (.fatal msg)) ∧
        ∃ extra, (Ami.cleanAMIs env o w).1.trace = w.trace ++ extra ∧
          ∀ e ∈ extra, e.isApiCall = false) ∧
      ((∃ msg, (Snap.cleanSnapshots env so w).2 = .error (.fatal msg)) ∧
        ∃ extra, (Snap.cleanSnapshots env so w).1.trace = w.trace ++ extra ∧
          ∀ e ∈ extra, e.isApiCall = false) := by
  obtain ⟨msg, w1, heq, hext⟩ := Ami.cleanAMIsFiltered_of_age_le env o w hage
  obtain ⟨smsg, sw1, hseq, hsext⟩ := Snap.cleanSnapshotsFiltered_of_age_le env so w hsage
  refine ⟨⟨⟨msg, ?_⟩, ?_⟩, ⟨⟨smsg, ?_⟩, ?_⟩⟩
  · simp [Ami.cleanAMIs, heq]
  · simpa [Ami.cleanAMIs, heq] using hext.not_apiCall
  · simp [Snap.cleanSnapshots, hseq]
  · simpa [Snap.cleanSnapshots, hseq] using hsext.not_apiCall

/-! ## The delete executor -/

theorem World.emit_trace (w : World) (e : Event) : (w.emit e).trace = w.trace ++ [e] := rfl

theorem BlockDeviceMapping.snapshotId_none_ebs (bd : BlockDeviceMapping) (h : bd.Ebs = none) :
    bd.snapshotId = none := by
  simp [BlockDeviceMapping.snapshotId, h]

theorem BlockDeviceMapping.snapshotId_some_ebs (bd : BlockDeviceMapping) (ebs : EbsBlockDevice)
    (h : bd.Ebs = some ebs) : bd.snapshotId = ebs.SnapshotId := by
  simp [BlockDeviceMapping.snapshotId, h]

theorem Ami.deleteAMIsInner_spec (env : Env) (image : Image) (id : String)
    (hid : image.ImageId = some id) (bds : List BlockDeviceMapping) (w : World) :
    ∃ w2 extra, Ami.deleteAMIsInner env image bds w = (w2, .ok ()) ∧
      w2.trace = w.trace ++ extra ∧
      extra.filter Event.isApiCall =
        (bds.filterMap BlockDeviceMapping.snapshotId).map
          (fun sid => Event.deleteSnapshot (some sid)) := by
  induction bds generalizing w with
  | nil => exact ⟨w, [], rfl, by simp, by simp⟩
  | cons bd rest ih =>
    cases hebs : bd.Ebs with
    | none =>
      obtain ⟨w2, extra, h1, h2, h3⟩ := ih w
      refine ⟨w2, extra, ?_, h2, ?_⟩
      · rw [Ami.deleteAMIsInner]
        simp only [hebs, h1]
      · simp [h3, bd.snapshotId_none_ebs hebs]
    | some ebs =>
      cases hsid : ebs.SnapshotId with
      | none =>
        obtain ⟨w2, extra, h1, h2, h3⟩ := ih w
        refine ⟨w2, extra, ?_, h2, ?_⟩
        · rw [Ami.deleteAMIsInner]
          simp only [hebs, hsid, h1]
        · simp [h3, bd.snapshotId_some_ebs ebs hebs, hsid]
      | some sid =>
        have hbd : bd.snapshotId = some sid := by
          rw [bd.snapshotId_some_ebs ebs hebs, hsid]
        cases hans : env.deleteSnapshot w.trace (some sid) with
        | some err =>
          obtain ⟨w2, extra, h1, h2, h3⟩ := ih
            ((w.emit (.deleteSnapshot (some sid))).emit
              (.logPrintf "Error deleting snapshot %s for AMI %s: %v\n"
                [.str sid, .str id, .err err]))
          refine ⟨w2, .deleteSnapshot (some sid) ::
            .logPrintf "Error deleting snapshot %s for AMI %s: %v\n"
              [.str sid, .str id, .err err] :: extra, ?_, ?_, ?_⟩
          · rw [Ami.deleteAMIsInner]
            simp only [hebs, hsid, hans, hid, h1]
          · rw [h2]; simp [World.emit_trace]
          · simp [h3, hbd, Event.isApiCall]
        | none =>
          obtain ⟨w2, extra, h1, h2, h3⟩ := ih
            ((w.emit (.deleteSnapshot (some sid))).emit
              (.printf "Deleted Snapshot: %s for AMI: %s\n" [.str sid, .str id]))
          refine ⟨w2, .deleteSnapshot (some sid) ::
            .printf "Deleted Snapshot: %s for AMI: %s\n" [.str sid, .str id] :: extra,
            ?_, ?_, ?_⟩
          · rw [Ami.deleteAMIsInner]
            simp only [hebs, hsid, hans, hid, h1]
          · rw [h2]; simp [World.emit_trace]
          · simp [h3, hbd, Event.isApiCall]

/-- One turn of the loop of `deleteAMIs` on an image that carries its identifier: the calls
it makes, and the world from which the loop goes on to the remaining images. -/
theorem Ami.deleteAMIs_cons (env : Env) (image : Image) (id : String)
    (hid : image.ImageId = some id) (w : World) :
    ∃ w2 extra, (∀ post, Ami.deleteAMIs env (image :: post) w = Ami.deleteAMIs env post w2) ∧
      w2.trace = w.trace ++ extra ∧
      extra.filter Event.isApiCall =
        Event.deregisterImage (some id) ::
          (if env.deregisterImage w.trace (some id) = none then
            (image.BlockDeviceMappings.filterMap BlockDeviceMapping.snapshotId).map
              (fun sid => Event.deleteSnapshot (some sid))
          else []) := by
  cases hans : env.deregisterImage w.trace (some id) with
  | some err =>
    refine ⟨(w.emit (.deregisterImage (some id))).emit
        (.logPrintf "Error deregistering AMI %s: %v\n" [.str id, .err err]),
      [.deregisterImage (some id),
        .logPrintf "Error deregistering AMI %s: %v\n" [.str id, .err err]], ?_, ?_, ?_⟩
    · intro post
      rw [Ami.deleteAMIs]
      simp only [hid, hans]
    · simp [World.emit_trace]
    · simp [Event.isApiCall]
  | none =>
    obtain ⟨w2, extra, h1, h2, h3⟩ := Ami.deleteAMIsInner_spec env image id hid
      image.BlockDeviceMappings
      ((w.emit (.deregisterImage (some id))).emit (.printf "Deregistered AMI: %s\n" [.str id]))
    refine ⟨w2, .deregisterImage (some id) ::
      .printf "Deregistered AMI: %s\n" [.str id] :: extra, ?_, ?_, ?_⟩
    · intro post
      rw [Ami.deleteAMIs]
      simp only [hid, hans, h1]
    · rw [h2]; simp [World.emit_trace]
    · simp [h3, Event.isApiCall]

theorem filter_isDeregister_of_apiCalls (l : List Event) :
    l.filter Event.isDeregister = (l.filter Event.isApiCall).filter Event.isDeregister := by
  rw [List.filter_filter]
  congr 1
  funext e
  cases e <;> rfl

theorem filter_isDeregister_map_deleteSnapshot (l : List String) :
    (l.map (fun sid => Event.deleteSnapshot (some sid))).filter Event.isDeregister = [] := by
  induction l with
  | nil => rfl
  | cons a rest ih => simp [Event.isDeregister]

theorem Ami.deleteAMIs_spec (env : Env) (images : List Image) (w : World)
    (hids : ∀ image ∈ images, image.ImageId ≠ none) :
    ∃ w2 extra, Ami.deleteAMIs env images w = (w2, .ok ()) ∧
      w2.trace = w.trace ++ extra ∧
      extra.filter Event.isDeregister =
        images.map (fun image => Event.deregisterImage image.ImageId) := by
  induction images generalizing w with
  | nil => exact ⟨w, [], rfl, by simp, by simp⟩
  | cons image rest ih =>
    obtain ⟨id, hid⟩ := Option.ne_none_iff_exists'.mp (hids image (List.mem_cons_self _ _))
    obtain ⟨w1, e1, hstep, ht1, hc1⟩ := Ami.deleteAMIs_cons env image id hid w
    obtain ⟨w2, e2, hrun, ht2, hc2⟩ :=
      ih w1 (fun i hi => hids i (List.mem_cons_of_mem _ hi))
    refine ⟨w2, e1 ++ e2, by rw [hstep rest, hrun], by rw [ht2, ht1, List.append_assoc], ?_⟩
    rw [List.filter_append, hc2, filter_isDeregister_of_apiCalls e1, hc1, List.map_cons, hid]
    split
    · simp [Event.isDeregister, filter_isDeregister_map_deleteSnapshot]
    · simp [Event.isDeregister]

theorem Snap.deleteSnapshots_spec (env : Env) (snapshots : List Snapshot) (w : World)
    (hids : ∀ snapshot ∈ snapshots, snapshot.SnapshotId ≠ none) :
    ∃ w2 extra, Snap.deleteSnapshots env snapshots w = (w2, .ok ()) ∧
      w2.trace = w.trace ++ extra ∧
      extra.filter Event.isApiCall =
        snapshots.map (fun snapshot => Event.deleteSnapshot snapshot.SnapshotId) := by
  induction snapshots generalizing w with
  | nil => exact ⟨w, [], rfl, by simp, by simp⟩
  | cons snapshot rest ih =>
    obtain ⟨id, hid⟩ := Option.ne_none_iff_exists'.mp (hids snapshot (List.mem_cons_self _ _))
    have hrest : ∀ s ∈ rest, s.SnapshotId ≠ none := fun i hi => hids i (List.mem_cons_of_mem _ hi)
    cases hans : env.deleteSnapshot w.trace (some id) with
    | some err =>
      obtain ⟨w2, extra, h1, h2, h3⟩ := ih
        ((w.emit (.deleteSnapshot (some id))).emit
          (.logPrintf "Could not delete snapshot %s: %v" [.str id, .err err])) hrest
      refine ⟨w2, .deleteSnapshot (some id) ::
        .logPrintf "Could not delete snapshot %s: %v" [.str id, .err err] :: extra, ?_, ?_, ?_⟩
      · rw [Snap.deleteSnapshots]
        simp only [hid, hans, h1]
      · rw [h2]; simp [World.emit_trace]
      · simp [h3, hid, Event.isApiCall]
    | none =>
      obtain ⟨w2, extra, h1, h2, h3⟩ := ih
        ((w.emit (.deleteSnapshot (some id))).emit
          (.printf "Successfully deleted snapshot: %s\n" [.str id])) hrest
      refine ⟨w2, .deleteSnapshot (some id) ::
        .printf "Successfully deleted snapshot: %s\n" [.str id] :: extra, ?_, ?_, ?_⟩
      · rw [Snap.deleteSnapshots]
        simp only [hid, hans, h1]
      · rw [h2]; simp [World.emit_trace]
      · simp [h3, hid, Event.isApiCall]

/-- C7: for every list of items that carry their identifiers and every way the outside world
answers the delete calls, `deleteAMIs` and `deleteSnapshots` run to the end of the list, and
the primary delete calls they add to the trace (`DeregisterImage` for images, `DeleteSnapshot`
for snapshots) are one per item, in the order of the list: a failed call neither stops the
loop nor is tried again. -/
theorem C7_primary_deletion_attempted_once_per_item_in_order (env : Env)
    (images : List Image) (snapshots : List Snapshot) (w : World)
    (hids : ∀ image ∈ images, image.ImageId ≠ none)
    (hsids : ∀ snapshot ∈ snapshots, snapshot.SnapshotId ≠ none) :
    ((Ami.deleteAMIs env images w).2 = .ok () ∧
        ∃ extra, (Ami.deleteAMIs env images w).1.trace = w.trace ++ extra ∧
          extra.filter Event.isDeregister =
            images.map (fun image => Event.deregisterImage image.ImageId)) ∧
      ((Snap.deleteSnapshots env snapshots w).2 = .ok () ∧
        ∃ extra, (Snap.deleteSnapshots env snapshots w).1.trace = w.trace ++ extra ∧
          extra.filter Event.isApiCall =
            snapshots.map (fun snapshot => Event.deleteSnapshot snapshot.SnapshotId)) := by
  obtain ⟨w2, extra, h1, h2, h3⟩ := Ami.deleteAMIs_spec env images w hids
  obtain ⟨sw2, sextra, sh1, sh2, sh3⟩ := Snap.deleteSnapshots_spec env snapshots w hsids
  rw [h1, sh1]
  exact ⟨⟨rfl, extra, h2, h3⟩, ⟨rfl, sextra, sh2, sh3⟩⟩

/-- The images that reach `deleteAMIs` in `cleanAMIs` carry their identifiers: the reporting
loop has dereferenced `ImageId` of each of them. -/
theorem Ami.reportLoop_ok_ids (images : List Image) (w w2 : World)
    (hrun : Ami.reportLoop images w = (w2, .ok ())) :
    ∀ image ∈ images, image.ImageId ≠ none := by
  induction images generalizing w with
  | nil => simp
  | cons head rest ih =>
    rw [Ami.reportLoop] at hrun
    cases hid : head.ImageId with
    | none => simp [hid] at hrun
    | some id =>
      simp only [hid] at hrun
      intro image hi
      rcases List.mem_cons.mp hi with rfl | h
      · simp [hid]
      · exact ih _ hrun image h

/-- The snapshots that reach `deleteSnapshots` in `cleanSnapshots` carry their identifiers. -/
theorem Snap.snapshot_reportLoop_ok_ids (snapshots : List Snapshot) (w w2 : World)
    (hrun : Snap.reportLoop snapshots w = (w2, .ok ())) :
    ∀ snapshot ∈ snapshots, snapshot.SnapshotId ≠ none := by
  induction snapshots generalizing w with
  | nil => simp
  | cons head rest ih =>
    rw [Snap.reportLoop] at hrun
    cases hid : head.SnapshotId with
    | none => simp [hid] at hrun
    | some id =>
      cases hdesc : head.Description with
      | none => simp [hid, hdesc] at hrun
      | some description =>
        simp only [hid, hdesc] at hrun
        intro snapshot hi
        rcases List.mem_cons.mp hi with rfl | h
        · simp [hid]
        · exact ih _ hrun snapshot h

/-- In a run of `cleanAMIs` with auto-cleanup that gets past the report, `DeregisterImage` is
called once for each image of the reported list, in its order. -/
theorem Ami.cleanAMIs_deregisters_reported (env : Env) (o : Ami.AMIOptions) (w w1 w2 : World)
    (result : List Image) (hauto : o.AutoCleanup = true)
    (hfiltered : Ami.cleanAMIsFiltered env o w = (w1, .ok result))
    (hreport : Ami.reportLoop result (w1.emit (.printf "Filtered AMIs:\n" [])) = (w2, .ok ())) :
    (Ami.cleanAMIs env o w).2 = .ok () ∧
      ∃ extra, (Ami.cleanAMIs env o w).1.trace = w2.trace ++ extra ∧
        extra.filter Event.isDeregister =
          result.map (fun image => Event.deregisterImage image.ImageId) := by
  obtain ⟨w3, extra, h1, h2, h3⟩ :=
    Ami.deleteAMIs_spec env result w2 (Ami.reportLoop_ok_ids result _ w2 hreport)
  have hrun : Ami.cleanAMIs env o w = (w3, .ok ()) := by
    unfold Ami.cleanAMIs
    simp only [hfiltered, hreport, hauto, if_true, h1]
  rw [hrun]
  exact ⟨rfl, extra, h2, h3⟩

theorem Ami.deleteAMIs_append (env : Env) (pre post : List Image) (w : World)
    (hids : ∀ image ∈ pre, image.ImageId ≠ none) :
    Ami.deleteAMIs env (pre ++ post) w = Ami.deleteAMIs env post (Ami.deleteAMIs env pre w).1 := by
  induction pre generalizing w with
  | nil => rfl
  | cons image rest ih =>
    obtain ⟨id, hid⟩ := Option.ne_none_iff_exists'.mp (hids image (List.mem_cons_self _ _))
    obtain ⟨w1, e1, hstep, _, _⟩ := Ami.deleteAMIs_cons env image id hid w
    rw [List.cons_append, hstep, hstep, ih w1 (fun i hi => hids i (List.mem_cons_of_mem _ hi))]

theorem Ami.deleteAMIsInner_extends (env : Env) (image : Image)
    (bds : List BlockDeviceMapping) (w : World) :
    Extends (fun _ => true) w (Ami.deleteAMIsInner env image bds w).1 := by
  induction bds generalizing w with
  | nil => exact Extends.refl _ _
  | cons bd rest ih =>
    unfold Ami.deleteAMIsInner
    split
    · exact ih _
    · split
      · exact ih _
      · dsimp only
        split
        · split
          · exact Extends.emit _ _ rfl
          · exact Extends.emit_left _ rfl (Extends.emit_left _ rfl (ih _))
        · split
          · exact Extends.emit _ _ rfl
          · exact Extends.emit_left _ rfl (Extends.emit_left _ rfl (ih _))

theorem Ami.deleteAMIs_extends (env : Env) (images : List Image) (w : World) :
    Extends (fun _ => true) w (Ami.deleteAMIs env images w).1 := by
  induction images generalizing w with
  | nil => exact Extends.refl _ _
  | cons image rest ih =>
    unfold Ami.deleteAMIs
    dsimp only
    split
    · split
      · exact Extends.emit _ _ rfl
      · exact Extends.emit_left _ rfl (Extends.emit_left _ rfl (ih _))
    · split
      · exact Extends.emit _ _ rfl
      · next id hid =>
        have hinner := Ami.deleteAMIsInner_extends env image image.BlockDeviceMappings
          ((w.emit (.deregisterImage image.ImageId)).emit
            (.printf "Deregistered AMI: %s\n" [.str id]))
        split
        · next w2 a heq =>
          rw [heq] at hinner
          exact Extends.emit_left _ rfl (Extends.emit_left _ rfl hinner)
        · next w2 u heq =>
          rw [heq] at hinner
          exact Extends.emit_left _ rfl (Extends.emit_left _ rfl (hinner.trans (ih _)))

/-- The first API call that `deleteAMIs` adds to the trace is the `DeregisterImage` call for
the first image of its list; for the empty list it adds no API call. -/
theorem Ami.deleteAMIs_first_call (env : Env) (images : List Image) (w : World) :
    ∃ added, (Ami.deleteAMIs env images w).1.trace = w.trace ++ added ∧
      (added.filter Event.isApiCall).head? =
        images.head?.map (fun image => Event.deregisterImage image.ImageId) := by
  cases images with
  | nil => exact ⟨[], by simp [Ami.deleteAMIs], rfl⟩
  | cons image rest =>
    have key : ∀ w2 : World, Extends (fun _ => true) (w.emit (.deregisterImage image.ImageId)) w2 →
        ∃ added, w2.trace = w.trace ++ added ∧
          (added.filter Event.isApiCall).head? = some (Event.deregisterImage image.ImageId) := by
      intro w2 h
      obtain ⟨more, hm, _⟩ := h
      refine ⟨Event.deregisterImage image.ImageId :: more, ?_, ?_⟩
      · rw [hm, World.emit_trace, List.append_assoc, List.singleton_append]
      · simp [Event.isApiCall]
    apply key
    unfold Ami.deleteAMIs
    dsimp only
    split
    · split
      · exact Extends.refl _ _
      · exact Extends.emit_left _ rfl (Ami.deleteAMIs_extends env rest _)
    · split
      · exact Extends.refl _ _
      · next id hid =>
        have hinner := Ami.deleteAMIsInner_extends env image image.BlockDeviceMappings
          ((w.emit (.deregisterImage image.ImageId)).emit
            (.printf "Deregistered AMI: %s\n" [.str id]))
        split
        · next w2 a heq =>
          rw [heq] at hinner
          exact Extends.emit_left _ rfl hinner
        · next w2 u heq =>
          rw [heq] at hinner
          exact Extends.emit_left _ rfl (hinner.trans (Ami.deleteAMIs_extends env rest _))

/-- C8: take an image with identifier `id` anywhere in the list given to `deleteAMIs`, after
images `pre` that carry their identifiers and before images `post`. The trace of the run on
the whole list is the trace of the run on `pre` alone (`w.trace ++ before`), then the events
`extra` of the image's turn, then events `after`. The API calls in `extra` are the
`DeregisterImage` call and, when that call succeeds, one `DeleteSnapshot` call for each
block-device mapping that has a snapshot id, in the order of the mappings and whatever the
answers to these calls are; when the `DeregisterImage` call fails there is no
`DeleteSnapshot` call. The first API call in `after` is the `DeregisterImage` call for the
next image, and `after` has no API call when the image is the last one. -/
theorem C8_dependent_snapshots_deleted_after_successful_deregister (env : Env)
    (pre post : List Image) (image : Image) (id : String) (w : World)
    (hid : image.ImageId = some id) (hpre : ∀ i ∈ pre, i.ImageId ≠ none) :
    ∃ before extra after,
      (Ami.deleteAMIs env pre w).1.trace = w.trace ++ before ∧
      (Ami.deleteAMIs env (pre ++ image :: post) w).1.trace =
        w.trace ++ before ++ extra ++ after ∧
      extra.filter Event.isApiCall =
        Event.deregisterImage (some id) ::
          (if env.deregisterImage (w.trace ++ before) (some id) = none then
            (image.BlockDeviceMappings.filterMap BlockDeviceMapping.snapshotId).map
              (fun sid => Event.deleteSnapshot (some sid))
          else []) ∧
      (after.filter Event.isApiCall).head? =
        post.head?.map (fun next => Event.deregisterImage next.ImageId) := by
  obtain ⟨w1, before, hrun1, ht1, _⟩ := Ami.deleteAMIs_spec env pre w hpre
  obtain ⟨w2, extra, hstep, ht2, hc⟩ := Ami.deleteAMIs_cons env image id hid w1
  obtain ⟨after, ht3, hfirst⟩ := Ami.deleteAMIs_first_call env post w2
  refine ⟨before, extra, after, by rw [hrun1, ht1], ?_, ?_, hfirst⟩
  · rw [Ami.deleteAMIs_append env pre _ w hpre, hrun1, hstep post, ht3, ht2, ht1]
  · rw [hc, ht1]

/-! ## Unparseable creation dates -/

theorem creationUnparseable_iff (env : Env) (image : Image) :
    creationUnparseable env image = true ↔
      ∃ s e, image.CreationDate = some s ∧ env.parse s = .error e := by
  unfold creationUnparseable
  cases hc : image.CreationDate with
  | none => simp
  | some s =>
    cases hp : env.parse s with
    | ok t => simp [parseFails, hp]
    | error e => simp [parseFails, hp]

theorem Ami.cleanAMIsLoop_skip_unparseable (env : Env) (o : Ami.AMIOptions) (cutoff : Time)
    (images : List Image)
    (hids : ∀ image ∈ images, creationUnparseable env image = true → image.ImageId ≠ none)
    (filtered : List Image) (w w2 : World) (hclock : w.clock = w2.clock) :
    (Ami.cleanAMIsLoop env o cutoff images filtered w).2 =
      (Ami.cleanAMIsLoop env o cutoff
        (images.filter (fun image => !creationUnparseable env image)) filtered w2).2 := by
  induction images generalizing filtered w w2 with
  | nil => rfl
  | cons image rest ih =>
    have hrest : ∀ i ∈ rest, creationUnparseable env i = true → i.ImageId ≠ none :=
      fun i hi => hids i (List.mem_cons_of_mem _ hi)
    cases hcd : image.CreationDate with
    | none =>
      have hkeep : creationUnparseable env image = false := by simp [creationUnparseable, hcd]
      simp only [List.filter_cons, hkeep, Bool.not_false, if_true]
      rw [Ami.cleanAMIsLoop, Ami.cleanAMIsLoop]
      simp only [hcd]
    | some s =>
      cases hp : env.parse s with
      | error e =>
        have hdrop : creationUnparseable env image = true := by
          simp [creationUnparseable, hcd, parseFails, hp]
        obtain ⟨id, hid⟩ :=
          Option.ne_none_iff_exists'.mp (hids image (List.mem_cons_self _ _) hdrop)
        simp only [List.filter_cons, hdrop, Bool.not_true]
        rw [Ami.cleanAMIsLoop]
        simp only [hcd, timeParse_error env s e hp, hid]
        exact ih hrest filtered _ w2 hclock
      | ok t =>
        have hkeep : creationUnparseable env image = false := by
          simp [creationUnparseable, hcd, parseFails, hp]
        simp only [List.filter_cons, hkeep, Bool.not_false, if_true]
        rw [Ami.cleanAMIsLoop, Ami.cleanAMIsLoop]
        simp only [hcd, timeParse_ok env s t hp, hclock]
        have htick : w.tick.clock = w2.tick.clock := by simp [World.tick, hclock]
        split
        · split
          · exact ih hrest _ w w2 hclock
          · split
            · split
              · exact ih hrest _ _ _ htick
              · exact ih hrest _ _ _ htick
            · exact ih hrest _ w w2 hclock
        · exact ih hrest _ w w2 hclock

theorem Ami.cleanAMIsLoop_no_abort (env : Env) (o : Ami.AMIOptions) (cutoff : Time)
    (images : List Image)
    (hids : ∀ image ∈ images, creationUnparseable env image = true → image.ImageId ≠ none)
    (hdates : ∀ image ∈ images, image.CreationDate ≠ none) (filtered : List Image)
    (w : World) :
    ∃ w2 result, Ami.cleanAMIsLoop env o cutoff images filtered w = (w2, .ok result) := by
  induction images generalizing filtered w with
  | nil => exact ⟨w, filtered, rfl⟩
  | cons image rest ih =>
    have hrest : ∀ i ∈ rest, creationUnparseable env i = true → i.ImageId ≠ none :=
      fun i hi => hids i (List.mem_cons_of_mem _ hi)
    have hdrest : ∀ i ∈ rest, i.CreationDate ≠ none :=
      fun i hi => hdates i (List.mem_cons_of_mem _ hi)
    obtain ⟨s, hcd⟩ := Option.ne_none_iff_exists'.mp (hdates image (List.mem_cons_self _ _))
    rw [Ami.cleanAMIsLoop]
    cases hp : env.parse s with
    | error e =>
      have hdrop : creationUnparseable env image = true := by
        simp [creationUnparseable, hcd, parseFails, hp]
      obtain ⟨id, hid⟩ :=
        Option.ne_none_iff_exists'.mp (hids image (List.mem_cons_self _ _) hdrop)
      simp only [hcd, timeParse_error env s e hp, hid]
      exact ih hrest hdrest _ _
    | ok t =>
      simp only [hcd, timeParse_ok env s t hp]
      split
      · split
        · exact ih hrest hdrest _ _
        · split
          · split
            · exact ih hrest hdrest _ _
            · exact ih hrest hdrest _ _
          · exact ih hrest hdrest _ _
      · exact ih hrest hdrest _ _

theorem Ami.filterStage_snd (env : Env) (o : Ami.AMIOptions) (cutoff : Time)
    (images : List Image) (w : World) :
    (Ami.filterStage env o cutoff images w).2 =
      match (Ami.cleanAMIsLoop env o cutoff images [] w).2 with
      | .error a => .error a
      | .ok filteredAMIs =>
        if o.NameFilter ≠ "" then .ok (Ami.filterAMIsByName o.NameFilter filteredAMIs)
        else .ok filteredAMIs := by
  unfold Ami.filterStage
  split
  · next w1 a heq => simp [heq]
  · next w1 fl heq =>
    simp only [heq]
    split <;> rfl

/-- C9: in `cleanAMIs` an image whose creation date does not parse is passed over, provided
it carries the identifier that the diagnostic line prints: the filtered result is the
filtered result of the inventory without the images whose creation date is present and fails
to parse, whatever the options and the cutoff; and when every image has a creation date the
filtering does not abort. -/
theorem C9_unparseable_creation_date_is_skipped (env : Env) (o : Ami.AMIOptions)
    (cutoff : Time) (images : List Image) (w : World)
    (hids : ∀ image ∈ images, creationUnparseable env image = true → image.ImageId ≠ none) :
    (Ami.filterStage env o cutoff images w).2 =
        (Ami.filterStage env o cutoff
          (images.filter (fun image => !creationUnparseable env image)) w).2 ∧
      (∀ image, creationUnparseable env image = true ↔
        ∃ s e, image.CreationDate = some s ∧ env.parse s = .error e) ∧
      ((∀ image ∈ images, image.CreationDate ≠ none) →
        ∃ result, (Ami.filterStage env o cutoff images w).2 = .ok result) := by
  refine ⟨?_, creationUnparseable_iff env, ?_⟩
  · rw [Ami.filterStage_snd, Ami.filterStage_snd,
      Ami.cleanAMIsLoop_skip_unparseable env o cutoff images hids [] w w rfl]
  · intro hdates
    obtain ⟨w2, result, h⟩ := Ami.cleanAMIsLoop_no_abort env o cutoff images hids hdates [] w
    rw [Ami.filterStage_snd, h]
    dsimp only
    split
    · exact ⟨_, rfl⟩
    · exact ⟨_, rfl⟩

/-! ## The hardcoded variant of `cleanup.go` -/

theorem World.tick_trace (w : World) : w.tick.trace = w.trace := rfl

theorem Cleanup.hardcoded_cleanAMIsLoop_eq_filter (env : Env) (cutoff : Time)
    (images filtered : List Image) (w : World)
    (hparse : ∀ image ∈ images, ∃ s t, image.CreationDate = some s ∧ env.parse s = .ok t) :
    Cleanup.cleanAMIsLoop env cutoff images filtered w =
      (w, .ok (filtered ++ images.filter (createdBefore env cutoff))) := by
  induction images generalizing filtered with
  | nil => simp [Cleanup.cleanAMIsLoop]
  | cons image rest ih =>
    obtain ⟨s, t, hs, ht⟩ := hparse image (List.mem_cons_self _ _)
    have hrest : ∀ image ∈ rest, ∃ s t, image.CreationDate = some s ∧ env.parse s = .ok t :=
      fun i hi => hparse i (List.mem_cons_of_mem _ hi)
    by_cases hlt : t < cutoff
    · simp [Cleanup.cleanAMIsLoop, hs, timeParse_ok env s t ht, Before, hlt, ih _ hrest,
        createdBefore, ht]
    · simp [Cleanup.cleanAMIsLoop, hs, timeParse_ok env s t ht, Before, hlt, ih _ hrest,
        createdBefore, ht]

/-- C10: in `cleanup.go`, `filterAMIsByName` returns, in input order, exactly the images
whose lower-cased name (the empty text when it is missing) contains `"test"`, so its result
is the same for any two filter strings; and when the configuration loads and the inventory
is listed with creation dates that all parse, the filtered result of `cleanAMIs` keeps the
images created strictly before `time.Now().AddDate(0, 0, -60)`, then applies that fixed
filter when a name filter is configured. -/
theorem C10_hardcoded_test_filter_and_sixty_day_cutoff (env : Env) (o : Cleanup.Options)
    (w : World) (images : List Image) (f g : String)
    (hload : env.loadDefaultConfig o.region = none)
    (hdescribe : env.describeImages w.trace [o.owner] = .ok images)
    (hparse : ∀ image ∈ images, ∃ s t, image.CreationDate = some s ∧ env.parse s = .ok t) :
    Cleanup.filterAMIsByName env.toLower f images =
        images.filter (fun image =>
          decide ("test".data <:+: (env.toLower (image.Name.getD "")).data)) ∧
      Cleanup.filterAMIsByName env.toLower f images =
        Cleanup.filterAMIsByName env.toLower g images ∧
      (Cleanup.cleanAMIsFiltered env o w).2 =
        .ok (if o.nameFilter = "" then
            images.filter (createdBefore env (env.addDate (env.now w.clock) 0 0 (-60)))
          else
            (images.filter (createdBefore env (env.addDate (env.now w.clock) 0 0 (-60)))).filter
              (fun image =>
                decide ("test".data <:+: (env.toLower (image.Name.getD "")).data))) := by
  have hfilter : ∀ (h : String) (l : List Image), Cleanup.filterAMIsByName env.toLower h l =
      l.filter (fun image =>
        decide ("test".data <:+: (env.toLower (image.Name.getD "")).data)) := by
    intro h l
    rw [Cleanup.hardcoded_filterAMIsByName_eq]
    congr 1
    funext image
    rw [stringsContains_eq_decide, awsToString_eq_getD]
  refine ⟨hfilter f images, by rw [hfilter f, hfilter g], ?_⟩
  unfold Cleanup.cleanAMIsFiltered
  simp only [hload, World.tick_trace, hdescribe,
    Cleanup.hardcoded_cleanAMIsLoop_eq_filter env _ images [] _ hparse, List.nil_append, hfilter]
  by_cases hn : o.nameFilter = ""
  · simp [hn]
  · simp [hn]

/-! ## Deprecated-only mode -/

/-- What does hold in deprecated-only mode: an image that the loop of `cleanAMIs` adds was
created strictly before the cutoff and has a deprecation time whose `time.Parse` result (the
zero time when the parse fails) is before a reading of the clock. -/
theorem Ami.cleanAMIsLoop_deprecated_sound (env : Env) (o : Ami.AMIOptions) (cutoff : Time)
    (hdep : o.Deprecated = true) (images filtered : List Image) (w w2 : World)
    (result : List Image)
    (hrun : Ami.cleanAMIsLoop env o cutoff images filtered w = (w2, .ok result)) :
    ∀ image ∈ result, image ∈ filtered ∨
      (image ∈ images ∧ createdBefore env cutoff image = true ∧
        ∃ d k, image.DeprecationTime = some d ∧ (timeParse env d).1 < env.now k) := by
  induction images generalizing filtered w with
  | nil =>
    simp only [Ami.cleanAMIsLoop, Prod.mk.injEq, Except.ok.injEq] at hrun
    intro image hi
    exact Or.inl (hrun.2 ▸ hi)
  | cons head rest ih =>
    have lift : ∀ (acc : List Image) (w1 : World),
        Ami.cleanAMIsLoop env o cutoff rest acc w1 = (w2, .ok result) →
        (∀ i ∈ acc, i ∈ filtered ∨ (i = head ∧ createdBefore env cutoff head = true ∧
          ∃ d k, head.DeprecationTime = some d ∧ (timeParse env d).1 < env.now k)) →
        ∀ image ∈ result, image ∈ filtered ∨
          (image ∈ head :: rest ∧ createdBefore env cutoff image = true ∧
            ∃ d k, image.DeprecationTime = some d ∧ (timeParse env d).1 < env.now k) := by
      intro acc w1 h hacc image hi
      rcases ih acc w1 h image hi with hin | ⟨hmem, hrest⟩
      · rcases hacc image hin with hf | ⟨rfl, hc, hd⟩
        · exact Or.inl hf
        · exact Or.inr ⟨List.mem_cons_self _ _, hc, hd⟩
      · exact Or.inr ⟨List.mem_cons_of_mem _ hmem, hrest⟩
    have keep : ∀ i ∈ filtered, i ∈ filtered ∨ (i = head ∧ createdBefore env cutoff head = true ∧
        ∃ d k, head.DeprecationTime = some d ∧ (timeParse env d).1 < env.now k) :=
      fun i hi => Or.inl hi
    rw [Ami.cleanAMIsLoop] at hrun
    cases hcd : head.CreationDate with
    | none => simp [hcd] at hrun
    | some s =>
      cases hp : env.parse s with
      | error e =>
        simp only [hcd, timeParse_error env s e hp] at hrun
        cases hid : head.ImageId with
        | none => simp [hid] at hrun
        | some id =>
          simp only [hid] at hrun
          exact lift _ _ hrun keep
      | ok t =>
        simp only [hcd, timeParse_ok env s t hp, hdep, Bool.not_true, Bool.false_eq_true,
          if_false] at hrun
        by_cases hlt : Before t cutoff = true
        · have hcb : createdBefore env cutoff head = true := by
            simpa [createdBefore, hcd, hp, Before] using hlt
          simp only [hlt, if_true] at hrun
          cases hdt : head.DeprecationTime with
          | none =>
            simp only [hdt] at hrun
            exact lift _ _ hrun keep
          | some d =>
            simp only [hdt] at hrun
            by_cases hb : Before (timeParse env d).1 (env.now w.clock) = true
            · simp only [hb, if_true] at hrun
              refine lift _ _ hrun ?_
              intro i hi
              rcases List.mem_append.mp hi with h | h
              · exact Or.inl h
              · refine Or.inr ⟨List.mem_singleton.mp h, hcb, d, w.clock, hdt, ?_⟩
                simpa [Before] using hb
            · simp only [hb] at hrun
              exact lift _ _ hrun keep
        · simp only [hlt] at hrun
          exact lift _ _ hrun keep

/-- C3 (evaluation at the failing input): in deprecated-only mode `cleanAMIs` keeps the
sample image `ami-old`, created in 2020, although its deprecation time `"not-a-time"` is no
timestamp at all: `time.Parse` fails on it, the error is dropped, and the zero time that comes
with the error is before now. -/
theorem C3_unparseable_deprecation_time_is_kept :
    sampleOld.DeprecationTime = some "not-a-time" ∧
      sampleEnv.parse "not-a-time" = .error "cannot parse" ∧
      sampleDeprecatedOnly.Deprecated = true ∧
      (Ami.cleanAMIsFiltered sampleEnv sampleDeprecatedOnly World.init).2 = .ok [sampleOld] :=
  ⟨rfl, rfl, rfl, rfl⟩

/-! ## Concrete instances on the sample world -/

theorem sample_two_parse : ∀ image ∈ [sampleOld, sampleNew],
    ∃ s t, image.CreationDate = some s ∧ sampleEnv.parse s = .ok t := by
  intro image h
  simp only [List.mem_cons, List.mem_singleton, List.not_mem_nil, or_false] at h
  rcases h with rfl | rfl
  · exact ⟨_, _, rfl, rfl⟩
  · exact ⟨_, _, rfl, rfl⟩

/-- Instance of C1: age 0 for `ami`, age -5 for `snapshot`. -/
theorem C1_nonpositive_age_is_fatal_before_any_call_witness :
    (sampleAgeZero.Age ≤ 0 ∧ sampleSnapNegativeAge.Age ≤ 0) ∧
      ((∃ msg, (Ami.cleanAMIs sampleEnv sampleAgeZero World.init).2 = .error (.fatal msg)) ∧
        ∃ extra, (Ami.cleanAMIs sampleEnv sampleAgeZero World.init).1.trace =
            World.init.trace ++ extra ∧
          ∀ e ∈ extra, e.isApiCall = false) ∧
      ((∃ msg, (Snap.cleanSnapshots sampleEnv sampleSnapNegativeAge World.init).2 =
          .error (.fatal msg)) ∧
        ∃ extra, (Snap.cleanSnapshots sampleEnv sampleSnapNegativeAge World.init).1.trace =
            World.init.trace ++ extra ∧
          ∀ e ∈ extra, e.isApiCall = false) :=
  ⟨⟨by decide, by decide⟩,
    C1_nonpositive_age_is_fatal_before_any_call sampleEnv sampleAgeZero sampleSnapNegativeAge
      World.init (by decide) (by decide)⟩

/-- Instance of C2: the two sample images and the two sample snapshots, with the cutoff at
the start time of the newer snapshot, which is therefore left out. -/
theorem C2_age_filter_strict_witness :
    ((Ami.filterStage sampleEnv samplePlain 1727740800000000000 [sampleOld, sampleNew]
            World.init).2 =
          .ok ([sampleOld, sampleNew].filter (createdBefore sampleEnv 1727740800000000000)) ∧
        ∀ image, createdBefore sampleEnv 1727740800000000000 image = true ↔
          ∃ s t, image.CreationDate = some s ∧ sampleEnv.parse s = .ok t ∧
            t < 1727740800000000000) ∧
      (Snap.filterStage sampleSnapPlain 1727740800000000000 [sampleSnapOld, sampleSnapNew] =
          .ok ([sampleSnapOld, sampleSnapNew].filter (startedBefore 1727740800000000000)) ∧
        ∀ snapshot, startedBefore 1727740800000000000 snapshot = true ↔
          ∃ t, snapshot.StartTime = some t ∧ t < 1727740800000000000) :=
  C2_age_filter_strict sampleEnv samplePlain sampleSnapPlain 1727740800000000000
    [sampleOld, sampleNew] [sampleSnapOld, sampleSnapNew] World.init rfl rfl rfl
    sample_two_parse (by decide)

/-- Instance of C6: the sample options without auto-cleanup. -/
theorem C6_no_destructive_call_without_auto_cleanup_witness :
    (samplePlain.AutoCleanup = false ∧ sampleSnapPlain.AutoCleanup = false) ∧
      (∃ extra, (Ami.cleanAMIs sampleEnv samplePlain World.init).1.trace =
          World.init.trace ++ extra ∧
        ∀ e ∈ extra, e.isDestructive = false) ∧
      (∃ extra, (Snap.cleanSnapshots sampleEnv sampleSnapPlain World.init).1.trace =
          World.init.trace ++ extra ∧
        ∀ e ∈ extra, e.isDestructive = false) ∧
      (∃ extra, (Cleanup.cleanAMIs sampleEnv sampleCleanupFlags World.init).1.trace =
          World.init.trace ++ extra ∧
        ∀ e ∈ extra, e.isDestructive = false) :=
  ⟨⟨rfl, rfl⟩,
    C6_no_destructive_call_without_auto_cleanup sampleEnv samplePlain sampleSnapPlain
      sampleCleanupFlags World.init rfl rfl⟩

/-- Instance of C7: `DeregisterImage` fails for `ami-new`, the first image of the list, and
`DeleteSnapshot` fails for `snap-1`, the first snapshot of the list. -/
theorem C7_primary_deletion_attempted_once_per_item_in_order_witness :
    ((Ami.deleteAMIs sampleEnv [sampleNew, sampleOld] World.init).2 = .ok () ∧
        ∃ extra, (Ami.deleteAMIs sampleEnv [sampleNew, sampleOld] World.init).1.trace =
            World.init.trace ++ extra ∧
          extra.filter Event.isDeregister =
            [sampleNew, sampleOld].map (fun image => Event.deregisterImage image.ImageId)) ∧
      ((Snap.deleteSnapshots sampleEnv [sampleSnapOld, sampleSnapNew] World.init).2 = .ok () ∧
        ∃ extra,
          (Snap.deleteSnapshots sampleEnv [sampleSnapOld, sampleSnapNew] World.init).1.trace =
            World.init.trace ++ extra ∧
          extra.filter Event.isApiCall =
            [sampleSnapOld, sampleSnapNew].map
              (fun snapshot => Event.deleteSnapshot snapshot.SnapshotId)) :=
  C7_primary_deletion_attempted_once_per_item_in_order sampleEnv [sampleNew, sampleOld]
    [sampleSnapOld, sampleSnapNew] World.init (by decide) (by decide)

/-- Instance of C8: `ami-old`, whose deregistration succeeds, after `ami-new`, whose
deregistration fails, and before `ami-bad`. -/
theorem C8_dependent_snapshots_deleted_after_successful_deregister_witness :
    ∃ before extra after,
      (Ami.deleteAMIs sampleEnv [sampleNew] World.init).1.trace =
        World.init.trace ++ before ∧
      (Ami.deleteAMIs sampleEnv ([sampleNew] ++ sampleOld :: [sampleBad]) World.init).1.trace =
        World.init.trace ++ before ++ extra ++ after ∧
      extra.filter Event.isApiCall =
        Event.deregisterImage (some "ami-old") ::
          (if sampleEnv.deregisterImage (World.init.trace ++ before) (some "ami-old") = none
          then
            (sampleOld.BlockDeviceMappings.filterMap BlockDeviceMapping.snapshotId).map
              (fun sid => Event.deleteSnapshot (some sid))
          else []) ∧
      (after.filter Event.isApiCall).head? =
        [sampleBad].head?.map (fun next => Event.deregisterImage next.ImageId) :=
  C8_dependent_snapshots_deleted_after_successful_deregister sampleEnv [sampleNew] [sampleBad]
    sampleOld "ami-old" World.init rfl (by decide)

/-- Instance of C9: the sample inventory of owner `self`, whose third image has the creation
date `"yesterday"`. -/
theorem C9_unparseable_creation_date_is_skipped_witness :
    (Ami.filterStage sampleEnv samplePlain 1727740800000000000
          [sampleOld, sampleNew, sampleBad] World.init).2 =
        (Ami.filterStage sampleEnv samplePlain 1727740800000000000
          ([sampleOld, sampleNew, sampleBad].filter
            (fun image => !creationUnparseable sampleEnv image)) World.init).2 ∧
      (∀ image, creationUnparseable sampleEnv image = true ↔
        ∃ s e, image.CreationDate = some s ∧ sampleEnv.parse s = .error e) ∧
      ((∀ image ∈ [sampleOld, sampleNew, sampleBad], image.CreationDate ≠ none) →
        ∃ result, (Ami.filterStage sampleEnv samplePlain 1727740800000000000
          [sampleOld, sampleNew, sampleBad] World.init).2 = .ok result) :=
  C9_unparseable_creation_date_is_skipped sampleEnv samplePlain 1727740800000000000
    [sampleOld, sampleNew, sampleBad] World.init (by decide)

/-- Instance of C10: the flags of `cleanup.go` with the name filter `"prod"`, on the two
sample images whose creation dates parse. -/
theorem C10_hardcoded_test_filter_and_sixty_day_cutoff_witness :
    Cleanup.filterAMIsByName sampleEnv.toLower "prod" [sampleOld, sampleNew] =
        [sampleOld, sampleNew].filter (fun image =>
          decide ("test".data <:+: (sampleEnv.toLower (image.Name.getD "")).data)) ∧
      Cleanup.filterAMIsByName sampleEnv.toLower "prod" [sampleOld, sampleNew] =
        Cleanup.filterAMIsByName sampleEnv.toLower "" [sampleOld, sampleNew] ∧
      (Cleanup.cleanAMIsFiltered sampleEnv sampleCleanupFlags World.init).2 =
        .ok (if sampleCleanupFlags.nameFilter = "" then
            [sampleOld, sampleNew].filter
              (createdBefore sampleEnv
                (sampleEnv.addDate (sampleEnv.now World.init.clock) 0 0 (-60)))
          else
            ([sampleOld, sampleNew].filter
              (createdBefore sampleEnv
                (sampleEnv.addDate (sampleEnv.now World.init.clock) 0 0 (-60)))).filter
              (fun image =>
                decide ("test".data <:+: (sampleEnv.toLower (image.Name.getD "")).data))) :=
  C10_hardcoded_test_filter_and_sixty_day_cutoff sampleEnv sampleCleanupFlags World.init
    [sampleOld, sampleNew] "prod" "" rfl rfl sample_two_parse

end AwsCleanup
